import Mathlib

/-!
Shallow embedding of the analytics core of `src/ecommerce_dashboard.py`:
the KPI metrics (lines 104-107), the RFM aggregation (lines 218-229),
the rank / qcut scoring (lines 232-245) and the segmentation rule
(lines 248-258).

Modelling conventions:
* A pandas timestamp is an integer count of nanoseconds (`Int`), exactly as
  `pd.Timestamp` stores it; one day is `86400000000000` ns and
  `Timedelta.days` is floor division by that constant.
* Monetary amounts are exact rationals (`Rat`) standing for the numeric
  `Amount` column.
* `df.groupby(key)` sorts the group keys in ascending order (pandas default
  `sort=True`), so the aggregated frame lists customers in ascending
  `Customer_ID` order.
* `Series.rank(method='first', ascending=True)` gives row `i` holding value
  `v` the rank `1 + #(rows with a smaller value) + #(earlier rows with an
  equal value)`.
* `pd.qcut(ranks, 5, ...)` on the ranks `1..n` of `n ≥ 2` distinct values
  computes the bin edges `1 + i*(n-1)/5` (linear-interpolation quantiles of
  `1..n`), producing for a rank `r ≥ 2` the 1-based bucket
  `⌈5*(r-1)/(n-1)⌉` and bucket 1 for `r = 1`.  For `n ≤ 1` all six edges
  coincide (`n = 1`: six equal numbers, `n = 0`: six NaNs, which pandas
  `unique` collapses), so `pd.qcut` raises
  `ValueError: Bin edges must be unique`; this error outcome is modelled
  by `none`.
-/

namespace EcommerceDashboard

/-- One cleaned row of the transaction table: `Invoice_Number`,
`Customer_ID`, `Invoice_Date` (ns since epoch) and `Amount`. -/
structure TransactionRecord where
  order_id : Nat
  customer_id : Nat
  timestamp : Int
  amount : Rat
deriving DecidableEq, Repr

/-- Nanoseconds in one day; `pd.Timedelta(days=1)`. -/
def nsPerDay : Int := 86400000000000

/-- The `.days` field of a pandas `Timedelta`: whole days, floored. -/
def timedeltaDays (td : Int) : Int := Int.fdiv td nsPerDay

/-- Maximum of a list of timestamps, `Series.max()`; `none` on an empty
series (pandas `NaT`). -/
def listMax? : List Int → Option Int
  | [] => none
  | t :: ts => some ((listMax? ts).elim t (max t))

/-- `df_filtered['Invoice_Date'].max()` (line 218). -/
def maxInvoiceDate (txs : List TransactionRecord) : Option Int :=
  listMax? (txs.map (fun t => t.timestamp))

/-- One row of the aggregated `rfm` frame (lines 220-229). -/
@[ext]
structure CustomerAggregate where
  customer_id : Nat
  recency : Int
  frequency : Nat
  monetary : Rat
deriving DecidableEq, Repr

/-- The rows of one customer's group in `df_filtered.groupby('Customer_ID')`. -/
def recordsOf (txs : List TransactionRecord) (c : Nat) : List TransactionRecord :=
  txs.filter (fun t => t.customer_id == c)

/-- The group keys of `df_filtered.groupby('Customer_ID')`: the distinct
customer ids, in ascending order (pandas sorts group keys). -/
def customerIds (txs : List TransactionRecord) : List Nat :=
  List.insertionSort (fun a b => a ≤ b) ((txs.map (fun t => t.customer_id)).dedup)

/-- Per-group `'Invoice_Date': lambda x: x.max()` (line 223); the group is
never empty, so the default value 0 is never read. -/
def lastPurchase (txs : List TransactionRecord) (c : Nat) : Int :=
  (listMax? ((recordsOf txs c).map (fun t => t.timestamp))).getD 0

/-- One aggregated row (lines 220-229): recency in whole days to the
snapshot, number of distinct invoice numbers, and summed amount. -/
def mkAggregate (snapshot : Int) (txs : List TransactionRecord) (c : Nat) :
    CustomerAggregate :=
  { customer_id := c
    recency := timedeltaDays (snapshot - lastPurchase txs c)
    frequency := (((recordsOf txs c).map (fun t => t.order_id)).dedup).length
    monetary := ((recordsOf txs c).map (fun t => t.amount)).sum }

/-- The aggregated `rfm` frame for an explicit snapshot instant. -/
def rfmAggregate (snapshot : Int) (txs : List TransactionRecord) :
    List CustomerAggregate :=
  (customerIds txs).map (mkAggregate snapshot txs)

/-- Lines 218-229 with the default snapshot
`df_filtered['Invoice_Date'].max() + pd.Timedelta(days=1)`; an empty input
has no groups, so the aggregation is empty. -/
def rfmAggregateDefault (txs : List TransactionRecord) : List CustomerAggregate :=
  match maxInvoiceDate txs with
  | none => []
  | some m => rfmAggregate (m + nsPerDay) txs

/-- The rank `Series.rank(method='first', ascending=True)` assigns to the
row at position `i` holding value `v`: one plus the number of rows with a
strictly smaller value plus the number of earlier rows with an equal
value (lines 232-234). -/
def rankOf {α : Type} [LinearOrder α] (vs : List α) (i : Nat) (v : α) : Nat :=
  1 + vs.countP (fun w => decide (w < v))
    + (vs.take i).countP (fun w => decide (w = v))

/-- The whole rank column produced by `rank(method='first')`. -/
def rankFirst {α : Type} [LinearOrder α] (vs : List α) : List Nat :=
  (List.finRange vs.length).map (fun i => rankOf vs i.1 (vs.get i))

/-- The 1-based bucket `pd.qcut(·, 5)` assigns to rank `r` among the ranks
`1..n` (`n ≥ 2`): bucket `⌈5*(r-1)/(n-1)⌉` for `r ≥ 2`, bucket 1 for
`r = 1` (lines 237-239, with exact bin edges `1 + i*(n-1)/5`). -/
def qcutBucket (n r : Nat) : Nat :=
  if r ≤ 1 then 1 else (5 * (r - 1) + (n - 2)) / (n - 1)

/-- Number of ranks out of `1..n` that fall into bucket `i` of `pd.qcut`. -/
def bucketSize (n i : Nat) : Nat :=
  ((List.range' 1 n).filter (fun r => qcutBucket n r == i)).length

/-- One row of the scored `rfm` frame (lines 232-258). -/
structure ScoredCustomer where
  customer_id : Nat
  recency : Int
  frequency : Nat
  monetary : Rat
  r_score : Nat
  f_score : Nat
  m_score : Nat
  rfm_score : String
  segment : String
deriving DecidableEq, Repr

/-- The segmentation rule `rfm_segment` (lines 248-256), a first-match-wins
chain of four guards. -/
def rfm_segment (r f m : Nat) : String :=
  if 4 ≤ r ∧ 4 ≤ f ∧ 4 ≤ m then "Best Customers"
  else if 4 ≤ r ∧ f ≤ 2 then "New Customers"
  else if r ≤ 2 ∧ 4 ≤ f then "Loyal Customers"
  else "Others"

/-- Scoring of the row at position `i` holding aggregate `a`: the
`R_Score` labels run `[5,4,3,2,1]` (bucket `b` gets `6 - b`), the
`F_Score` and `M_Score` labels run `[1,2,3,4,5]` (bucket `b` gets `b`);
`RFM_Score` is the three label strings concatenated (lines 237-245) and
`Segment` applies `rfm_segment` (line 258). -/
def scoreOne (aggs : List CustomerAggregate) (i : Nat) (a : CustomerAggregate) :
    ScoredCustomer :=
  let n := aggs.length
  let rS := 6 - qcutBucket n (rankOf (aggs.map (fun x => x.recency)) i a.recency)
  let fS := qcutBucket n (rankOf (aggs.map (fun x => x.frequency)) i a.frequency)
  let mS := qcutBucket n (rankOf (aggs.map (fun x => x.monetary)) i a.monetary)
  { customer_id := a.customer_id
    recency := a.recency
    frequency := a.frequency
    monetary := a.monetary
    r_score := rS
    f_score := fS
    m_score := mS
    rfm_score := toString rS ++ toString fS ++ toString mS
    segment := rfm_segment rS fS mS }

/-- Lines 232-258 on a whole aggregate frame.  With fewer than two rows all
six quantile bin edges of `pd.qcut` coincide and pandas raises
`ValueError: Bin edges must be unique` (`n = 1`: six copies of the single
rank, `n = 0`: six NaNs); the raised error is modelled by `none`. -/
def scoreRFM (aggs : List CustomerAggregate) : Option (List ScoredCustomer) :=
  if aggs.length < 2 then none
  else some ((List.finRange aggs.length).map (fun i => scoreOne aggs i.1 (aggs.get i)))

/-- KPI `total_sales = df_filtered['Amount'].sum()` (line 104). -/
def total_sales (txs : List TransactionRecord) : Rat :=
  (txs.map (fun t => t.amount)).sum

/-- KPI `total_orders = df_filtered['Invoice_Number'].nunique()` (line 105). -/
def total_orders (txs : List TransactionRecord) : Nat :=
  ((txs.map (fun t => t.order_id)).dedup).length

/-- KPI `total_customers = df_filtered['Customer_ID'].nunique()` (line 106). -/
def total_customers (txs : List TransactionRecord) : Nat :=
  ((txs.map (fun t => t.customer_id)).dedup).length

/-- KPI `avg_order_value = total_sales / total_orders if total_orders > 0
else 0` (line 107). -/
def avg_order_value (txs : List TransactionRecord) : Rat :=
  if 0 < total_orders txs then total_sales txs / (total_orders txs : Rat) else 0

/-- The transaction set of testable property 1 of the spec: one customer,
orders at days 0, 1 and 2, the rows at days 0 and 2 belonging to invoice 1
and the row at day 1 to invoice 2. -/
def exampleTxs : List TransactionRecord :=
  [ { order_id := 1, customer_id := 77, timestamp := 0, amount := 10 }
  , { order_id := 2, customer_id := 77, timestamp := nsPerDay, amount := 20 }
  , { order_id := 1, customer_id := 77, timestamp := 2 * nsPerDay, amount := 30 } ]

/-- A two-customer population: customer 1 has the single largest recency,
customer 2 the single largest frequency and monetary value. -/
def aggs2 : List CustomerAggregate :=
  [ { customer_id := 1, recency := 5, frequency := 1, monetary := 10 }
  , { customer_id := 2, recency := 3, frequency := 4, monetary := 99 } ]

/-- The scored frame the pipeline produces on `aggs2`. -/
def out2 : List ScoredCustomer :=
  [ { customer_id := 1, recency := 5, frequency := 1, monetary := 10
    , r_score := 1, f_score := 1, m_score := 1, rfm_score := "111", segment := "Others" }
  , { customer_id := 2, recency := 3, frequency := 4, monetary := 99
    , r_score := 5, f_score := 5, m_score := 5, rfm_score := "555", segment := "Best Customers" } ]

/-- A three-customer population whose middle customer lands in the middle
quantile bucket of every dimension. -/
def aggs3 : List CustomerAggregate :=
  [ { customer_id := 1, recency := 9, frequency := 1, monetary := 5 }
  , { customer_id := 2, recency := 4, frequency := 3, monetary := 50 }
  , { customer_id := 3, recency := 2, frequency := 8, monetary := 20 } ]

/-- The scored frame the pipeline produces on `aggs3`. -/
def out3 : List ScoredCustomer :=
  [ { customer_id := 1, recency := 9, frequency := 1, monetary := 5
    , r_score := 1, f_score := 1, m_score := 1, rfm_score := "111", segment := "Others" }
  , { customer_id := 2, recency := 4, frequency := 3, monetary := 50
    , r_score := 3, f_score := 3, m_score := 5, rfm_score := "335", segment := "Others" }
  , { customer_id := 3, recency := 2, frequency := 8, monetary := 20
    , r_score := 5, f_score := 5, m_score := 3, rfm_score := "553", segment := "Others" } ]

/-- The first row of `out2`, used as a concrete composite-score example. -/
def scW : ScoredCustomer :=
  { customer_id := 1, recency := 5, frequency := 1, monetary := 10
  , r_score := 1, f_score := 1, m_score := 1, rfm_score := "111"
  , segment := "Others" }

/-- Two customers with equal recency values, to exercise the rank
tie-break. -/
def aggsTie : List CustomerAggregate :=
  [ { customer_id := 1, recency := 5, frequency := 1, monetary := 10 }
  , { customer_id := 2, recency := 5, frequency := 2, monetary := 20 } ]

section RankLemmas

variable {α : Type} [LinearOrder α]

theorem countP_lt_add_countP_eq (v : α) (l : List α) :
    l.countP (fun w => decide (w < v)) + l.countP (fun w => decide (w = v))
      = l.countP (fun w => decide (w ≤ v)) := by
  induction l with
  | nil => simp
  | cons a l ih =>
    simp only [List.countP_cons, decide_eq_true_eq]
    rcases lt_trichotomy a v with h | h | h
    · rw [if_pos (by exact h), if_neg (by exact ne_of_lt h), if_pos (le_of_lt h)]
      omega
    · rw [if_neg (by simp [h]), if_pos h, if_pos (le_of_eq h)]
      omega
    · rw [if_neg (by exact not_lt_of_gt h), if_neg (by exact (ne_of_gt h)),
        if_neg (not_le_of_gt h)]
      omega

theorem take_countP_lt (vs : List α) (i : Nat) (hi : i < vs.length) :
    (vs.take i).countP (fun w => decide (w = vs.get ⟨i, hi⟩))
      < vs.countP (fun w => decide (w = vs.get ⟨i, hi⟩)) := by
  have hsum : vs.countP (fun w => decide (w = vs.get ⟨i, hi⟩))
      = (vs.take i).countP (fun w => decide (w = vs.get ⟨i, hi⟩))
        + (vs.drop i).countP (fun w => decide (w = vs.get ⟨i, hi⟩)) := by
    rw [← List.countP_append, List.take_append_drop]
  have hone : 1 ≤ (vs.drop i).countP (fun w => decide (w = vs.get ⟨i, hi⟩)) := by
    rw [List.drop_eq_getElem_cons hi, List.countP_cons]
    simp
  omega

theorem rankOf_pos (vs : List α) (i : Nat) (v : α) : 1 ≤ rankOf vs i v := by
  unfold rankOf
  omega

theorem rankOf_le_length (vs : List α) (i : Nat) (hi : i < vs.length) :
    rankOf vs i (vs.get ⟨i, hi⟩) ≤ vs.length := by
  have h1 := take_countP_lt vs i hi
  have h2 := countP_lt_add_countP_eq (vs.get ⟨i, hi⟩) vs
  have h3 : vs.countP (fun w => decide (w ≤ vs.get ⟨i, hi⟩)) ≤ vs.length :=
    List.countP_le_length _
  unfold rankOf
  omega

theorem rankOf_lt_of_val_lt (vs : List α) (i j : Nat) (hi : i < vs.length)
    (hj : j < vs.length) (hv : vs.get ⟨i, hi⟩ < vs.get ⟨j, hj⟩) :
    rankOf vs i (vs.get ⟨i, hi⟩) < rankOf vs j (vs.get ⟨j, hj⟩) := by
  have h1 := take_countP_lt vs i hi
  have h2 := countP_lt_add_countP_eq (vs.get ⟨i, hi⟩) vs
  have h3 : vs.countP (fun w => decide (w ≤ vs.get ⟨i, hi⟩))
      ≤ vs.countP (fun w => decide (w < vs.get ⟨j, hj⟩)) :=
    List.countP_mono_left (fun w _ hw => by
      simp only [decide_eq_true_eq] at hw ⊢
      exact lt_of_le_of_lt hw hv)
  unfold rankOf
  omega

theorem rankOf_lt_of_val_eq (vs : List α) (i j : Nat) (hij : i < j)
    (hj : j < vs.length) (hv : vs.get ⟨i, lt_trans hij hj⟩ = vs.get ⟨j, hj⟩) :
    rankOf vs i (vs.get ⟨i, lt_trans hij hj⟩) < rankOf vs j (vs.get ⟨j, hj⟩) := by
  have hi : i < vs.length := lt_trans hij hj
  rw [hv]
  unfold rankOf
  have hsplit : vs.take j = vs.take i ++ (vs.drop i).take (j - i) := by
    rw [← List.take_add]
    congr 1
    omega
  rw [hsplit, List.countP_append]
  have hhead : (vs.drop i).take (j - i)
      = vs.get ⟨i, hi⟩ :: (vs.drop (i + 1)).take (j - i - 1) := by
    rw [List.drop_eq_getElem_cons hi, show j - i = (j - i - 1) + 1 by omega]
    rfl
  have hone : 1 ≤ ((vs.drop i).take (j - i)).countP
      (fun w => decide (w = vs.get ⟨j, hj⟩)) := by
    rw [hhead, List.countP_cons]
    have hij' : vs[i] = vs[j] := hv
    simp [hij']
  omega

theorem rankFirst_length (vs : List α) : (rankFirst vs).length = vs.length := by
  simp [rankFirst]

theorem rankFirst_getElem (vs : List α) (i : Nat) (h : i < (rankFirst vs).length) :
    (rankFirst vs)[i] = rankOf vs i (vs.get ⟨i, by rw [rankFirst_length] at h; exact h⟩) := by
  simp [rankFirst]

theorem rankFirst_nodup (vs : List α) : (rankFirst vs).Nodup := by
  rw [List.nodup_iff_injective_get]
  rintro ⟨i, hi⟩ ⟨j, hj⟩ hij
  have hi' : i < vs.length := by rw [rankFirst_length] at hi; exact hi
  have hj' : j < vs.length := by rw [rankFirst_length] at hj; exact hj
  simp only [List.get_eq_getElem, rankFirst_getElem] at hij
  have main : ∀ (a b : Nat) (ha : a < vs.length) (hb : b < vs.length), a < b →
      rankOf vs a (vs.get ⟨a, ha⟩) ≠ rankOf vs b (vs.get ⟨b, hb⟩) := by
    intro a b ha hb hab
    rcases lt_trichotomy (vs.get ⟨a, ha⟩) (vs.get ⟨b, hb⟩) with h | h | h
    · exact Nat.ne_of_lt (rankOf_lt_of_val_lt vs a b ha hb h)
    · exact Nat.ne_of_lt (rankOf_lt_of_val_eq vs a b hab hb h)
    · exact (Nat.ne_of_lt (rankOf_lt_of_val_lt vs b a hb ha h)).symm
  rcases lt_trichotomy i j with h | h | h
  · exact absurd hij (main i j hi' hj' h)
  · simp [h]
  · exact absurd hij.symm (main j i hj' hi' h)

theorem rankFirst_mem_bounds (vs : List α) (r : Nat) (hr : r ∈ rankFirst vs) :
    1 ≤ r ∧ r ≤ vs.length := by
  rcases List.mem_iff_getElem.mp hr with ⟨i, hi, hig⟩
  have hi' : i < vs.length := by rw [rankFirst_length] at hi; exact hi
  rw [rankFirst_getElem vs i hi] at hig
  subst hig
  exact ⟨rankOf_pos vs i _, rankOf_le_length vs i hi'⟩

theorem toFinset_range'_one (n : Nat) :
    (List.range' 1 n).toFinset = Finset.Icc 1 n := by
  ext m
  simp only [List.mem_toFinset, Finset.mem_Icc, List.mem_range']
  constructor
  · rintro ⟨i, hi, rfl⟩
    omega
  · rintro ⟨h1, h2⟩
    exact ⟨m - 1, by omega, by omega⟩

theorem rankFirst_perm (vs : List α) :
    (rankFirst vs).Perm (List.range' 1 vs.length) := by
  apply List.perm_of_nodup_nodup_toFinset_eq (rankFirst_nodup vs)
    (List.nodup_range' 1 vs.length)
  rw [toFinset_range'_one]
  apply Finset.eq_of_subset_of_card_le
  · intro r hr
    rw [List.mem_toFinset] at hr
    rw [Finset.mem_Icc]
    exact rankFirst_mem_bounds vs r hr
  · rw [Nat.card_Icc, List.toFinset_card_of_nodup (rankFirst_nodup vs),
      rankFirst_length]
    omega

theorem rankOf_eq_length_of_strict_max (vs : List α) (i : Nat) (hi : i < vs.length)
    (hmax : ∀ (j : Nat) (hj : j < vs.length), j ≠ i → vs.get ⟨j, hj⟩ < vs.get ⟨i, hi⟩) :
    rankOf vs i (vs.get ⟨i, hi⟩) = vs.length := by
  have htake : ∀ a ∈ vs.take i, a < vs.get ⟨i, hi⟩ := by
    intro a ha
    rcases List.mem_take_iff_getElem.mp ha with ⟨k, hk, hka⟩
    have hk' : k < vs.length := by omega
    have : k ≠ i := by omega
    rw [← hka]
    exact hmax k hk' this
  have hdrop : ∀ a ∈ vs.drop (i + 1), a < vs.get ⟨i, hi⟩ := by
    intro a ha
    rcases List.mem_iff_getElem.mp ha with ⟨k, hk, hka⟩
    rw [List.getElem_drop] at hka
    have hk' : i + 1 + k < vs.length := by
      have := List.length_drop (i + 1) vs
      omega
    have : i + 1 + k ≠ i := by omega
    rw [← hka]
    exact hmax (i + 1 + k) hk' this
  have hlt : vs.countP (fun w => decide (w < vs.get ⟨i, hi⟩)) = vs.length - 1 := by
    have hsum : vs.countP (fun w => decide (w < vs.get ⟨i, hi⟩))
        = (vs.take i).countP (fun w => decide (w < vs.get ⟨i, hi⟩))
          + (vs.drop i).countP (fun w => decide (w < vs.get ⟨i, hi⟩)) := by
      rw [← List.countP_append, List.take_append_drop]
    have h1 : (vs.take i).countP (fun w => decide (w < vs.get ⟨i, hi⟩))
        = (vs.take i).length :=
      List.countP_eq_length.mpr (fun a ha => by simpa using htake a ha)
    have h2 : (vs.drop i).countP (fun w => decide (w < vs.get ⟨i, hi⟩))
        = (vs.drop (i + 1)).length := by
      rw [List.drop_eq_getElem_cons hi, List.countP_cons]
      rw [List.countP_eq_length.mpr (fun a ha => by simpa using hdrop a ha)]
      simp
    rw [hsum, h1, h2, List.length_take, List.length_drop]
    omega
  have heq : (vs.take i).countP (fun w => decide (w = vs.get ⟨i, hi⟩)) = 0 := by
    rw [List.countP_eq_zero]
    intro a ha
    simp only [decide_eq_true_eq]
    exact ne_of_lt (htake a ha)
  unfold rankOf
  rw [hlt, heq]
  omega

theorem rankOf_eq_one_of_strict_min (vs : List α) (i : Nat) (hi : i < vs.length)
    (hmin : ∀ (j : Nat) (hj : j < vs.length), j ≠ i → vs.get ⟨i, hi⟩ < vs.get ⟨j, hj⟩) :
    rankOf vs i (vs.get ⟨i, hi⟩) = 1 := by
  have htake : ∀ a ∈ vs.take i, vs.get ⟨i, hi⟩ < a := by
    intro a ha
    rcases List.mem_take_iff_getElem.mp ha with ⟨k, hk, hka⟩
    have hk' : k < vs.length := by omega
    have : k ≠ i := by omega
    rw [← hka]
    exact hmin k hk' this
  have hlt : vs.countP (fun w => decide (w < vs.get ⟨i, hi⟩)) = 0 := by
    rw [List.countP_eq_zero]
    intro a ha
    simp only [decide_eq_true_eq, not_lt]
    rcases List.mem_iff_getElem.mp ha with ⟨k, hk, hka⟩
    by_cases hki : k = i
    · subst hki
      rw [← hka]
      exact le_rfl
    · rw [← hka]
      exact le_of_lt (hmin k hk hki)
  have heq : (vs.take i).countP (fun w => decide (w = vs.get ⟨i, hi⟩)) = 0 := by
    rw [List.countP_eq_zero]
    intro a ha
    simp only [decide_eq_true_eq]
    exact (ne_of_lt (htake a ha)).symm
  unfold rankOf
  rw [hlt, heq]

end RankLemmas

section QcutLemmas

theorem qcutBucket_pos (n r : Nat) (hn : 2 ≤ n) (hr : 1 ≤ r) :
    1 ≤ qcutBucket n r := by
  unfold qcutBucket
  split
  · omega
  · rw [Nat.le_div_iff_mul_le (show 0 < n - 1 by omega)]
    omega

theorem qcutBucket_le_five (n r : Nat) (hn : 2 ≤ n) (hr : r ≤ n) :
    qcutBucket n r ≤ 5 := by
  unfold qcutBucket
  split
  · omega
  · rw [Nat.div_le_iff_le_mul_add_pred (show 0 < n - 1 by omega)]
    omega

theorem qcutBucket_last (n : Nat) (hn : 2 ≤ n) : qcutBucket n n = 5 := by
  unfold qcutBucket
  rw [if_neg (by omega), show 5 * (n - 1) + (n - 2) = (n - 1) * 5 + (n - 2) by ring,
    Nat.mul_add_div (by omega), Nat.div_eq_of_lt (by omega)]

theorem qcutBucket_first (n : Nat) : qcutBucket n 1 = 1 := by
  simp [qcutBucket]

theorem qcutBucket_le_iff (n i r : Nat) (hn : 2 ≤ n) (hr1 : 1 ≤ r)
    (hrn : r ≤ n) (hi : 1 ≤ i) :
    qcutBucket n r ≤ i ↔ r ≤ 1 + (i * (n - 1)) / 5 := by
  unfold qcutBucket
  split
  · constructor
    · intro _
      omega
    · intro _
      exact hi
  · rename_i hgt
    rw [Nat.div_le_iff_le_mul_add_pred (show 0 < n - 1 by omega)]
    have hcomm : (n - 1) * i = i * (n - 1) := Nat.mul_comm _ _
    constructor
    · intro h
      have h5 : (r - 1) * 5 ≤ i * (n - 1) := by omega
      have := (Nat.le_div_iff_mul_le (show 0 < 5 by omega)).mpr h5
      omega
    · intro h
      have h2' : r - 1 ≤ (i * (n - 1)) / 5 := by omega
      have := (Nat.le_div_iff_mul_le (show 0 < 5 by omega)).mp h2'
      omega

theorem countP_le_range' (n m : Nat) :
    (List.range' 1 n).countP (fun r => decide (r ≤ m)) = min m n := by
  induction n with
  | zero => simp
  | succ k ih =>
    rw [List.range'_concat, List.countP_append, ih]
    simp only [List.countP_cons, List.countP_nil, decide_eq_true_eq]
    by_cases h : 1 + 1 * k ≤ m
    · rw [if_pos h]
      omega
    · rw [if_neg h]
      omega

theorem countP_bucket_le (n i : Nat) (hn : 2 ≤ n) (hi : 1 ≤ i) (hi5 : i ≤ 5) :
    (List.range' 1 n).countP (fun r => decide (qcutBucket n r ≤ i))
      = 1 + (i * (n - 1)) / 5 := by
  have hcong : (List.range' 1 n).countP (fun r => decide (qcutBucket n r ≤ i))
      = (List.range' 1 n).countP (fun r => decide (r ≤ 1 + (i * (n - 1)) / 5)) := by
    rw [List.countP_eq_length_filter, List.countP_eq_length_filter]
    congr 1
    apply List.filter_congr
    intro r hr
    rcases List.mem_range'.mp hr with ⟨k, hk, rfl⟩
    simp only [decide_eq_decide]
    exact qcutBucket_le_iff n i (1 + 1 * k) hn (by omega) (by omega) hi
  rw [hcong, countP_le_range']
  have hdivle : (i * (n - 1)) / 5 ≤ n - 1 := by
    rw [Nat.div_le_iff_le_mul_add_pred (show 0 < 5 by omega)]
    have : i * (n - 1) ≤ 5 * (n - 1) := Nat.mul_le_mul_right _ hi5
    omega
  omega

theorem countP_bucket_le_zero (n : Nat) (hn : 2 ≤ n) :
    (List.range' 1 n).countP (fun r => decide (qcutBucket n r ≤ 0)) = 0 := by
  rw [List.countP_eq_zero]
  intro r hr
  rcases List.mem_range'.mp hr with ⟨k, hk, rfl⟩
  simp only [decide_eq_true_eq]
  have := qcutBucket_pos n (1 + 1 * k) hn (by omega)
  omega

theorem countP_bucket_split (n j i : Nat) (hji : j + 1 = i) :
    (List.range' 1 n).countP (fun r => decide (qcutBucket n r ≤ j))
      + (List.range' 1 n).countP (fun r => qcutBucket n r == i)
      = (List.range' 1 n).countP (fun r => decide (qcutBucket n r ≤ i)) := by
  induction (List.range' 1 n) with
  | nil => simp
  | cons a l ih =>
    simp only [List.countP_cons, decide_eq_true_eq, beq_iff_eq]
    have hcases : ((if qcutBucket n a ≤ j then 1 else 0) : Nat)
        + (if qcutBucket n a = i then 1 else 0)
        = (if qcutBucket n a ≤ i then 1 else 0) := by
      split_ifs <;> omega
    omega

theorem bucketSize_eq_countP (n i : Nat) :
    bucketSize n i = (List.range' 1 n).countP (fun r => qcutBucket n r == i) := by
  rw [bucketSize, List.countP_eq_length_filter]

end QcutLemmas

section PipelineLemmas

theorem scoreRFM_length_ge (aggs : List CustomerAggregate)
    (out : List ScoredCustomer) (h : scoreRFM aggs = some out) : 2 ≤ aggs.length := by
  unfold scoreRFM at h
  split at h
  · exact absurd h (by simp)
  · omega

theorem scoreRFM_out_length (aggs : List CustomerAggregate)
    (out : List ScoredCustomer) (h : scoreRFM aggs = some out) :
    out.length = aggs.length := by
  unfold scoreRFM at h
  split at h
  · exact absurd h (by simp)
  · have := Option.some.inj h
    rw [← this]
    simp

theorem scoreRFM_out_getElem (aggs : List CustomerAggregate)
    (out : List ScoredCustomer) (h : scoreRFM aggs = some out)
    (i : Nat) (hi : i < aggs.length) (hi' : i < out.length) :
    out.get ⟨i, hi'⟩ = scoreOne aggs i (aggs.get ⟨i, hi⟩) := by
  unfold scoreRFM at h
  split at h
  · exact absurd h (by simp)
  · have hout := (Option.some.inj h).symm
    subst hout
    simp [List.getElem_finRange]

theorem scoreRFM_mem (aggs : List CustomerAggregate)
    (out : List ScoredCustomer) (h : scoreRFM aggs = some out)
    (sc : ScoredCustomer) (hsc : sc ∈ out) :
    ∃ (i : Nat) (hi : i < aggs.length), sc = scoreOne aggs i (aggs.get ⟨i, hi⟩) := by
  rcases List.mem_iff_getElem.mp hsc with ⟨i, hi', hig⟩
  have hi : i < aggs.length := by
    rw [← scoreRFM_out_length aggs out h]
    exact hi'
  refine ⟨i, hi, ?_⟩
  rw [← hig]
  exact scoreRFM_out_getElem aggs out h i hi hi'

theorem listMax?_eq_none_iff (l : List Int) : listMax? l = none ↔ l = [] := by
  cases l <;> simp [listMax?]

theorem listMax?_isMax {l : List Int} {m : Int} (h : listMax? l = some m) :
    ∀ x ∈ l, x ≤ m := by
  induction l generalizing m with
  | nil => simp [listMax?] at h
  | cons t ts ih =>
    simp only [listMax?] at h
    cases hts : listMax? ts with
    | none =>
      rw [hts] at h
      simp only [Option.elim_none, Option.some.injEq] at h
      subst h
      have hnil : ts = [] := (listMax?_eq_none_iff ts).mp hts
      subst hnil
      simp
    | some mx =>
      rw [hts] at h
      simp only [Option.elim_some, Option.some.injEq] at h
      subst h
      intro x hx
      rcases List.mem_cons.mp hx with rfl | hx'
      · exact le_max_left _ _
      · exact le_trans (ih hts x hx') (le_max_right _ _)

theorem listMax?_mem {l : List Int} {m : Int} (h : listMax? l = some m) : m ∈ l := by
  induction l generalizing m with
  | nil => simp [listMax?] at h
  | cons t ts ih =>
    simp only [listMax?] at h
    cases hts : listMax? ts with
    | none =>
      rw [hts] at h
      simp only [Option.elim_none, Option.some.injEq] at h
      subst h
      exact List.mem_cons_self _ _
    | some mx =>
      rw [hts] at h
      simp only [Option.elim_some, Option.some.injEq] at h
      subst h
      rcases max_choice t mx with hc | hc
      · rw [hc]
        exact List.mem_cons_self _ _
      · rw [hc]
        exact List.mem_cons_of_mem _ (ih hts)

theorem toString_digit_length (s : Nat) (h1 : 1 ≤ s) (h5 : s ≤ 5) :
    (toString s).length = 1 := by
  interval_cases s <;> rfl

theorem rfm_segment_freq_three (r m : Nat) : rfm_segment r 3 m = "Others" := by
  unfold rfm_segment
  rw [if_neg (by omega), if_neg (by omega), if_neg (by omega)]

end PipelineLemmas

theorem exampleAgg_eq :
    rfmAggregateDefault exampleTxs
      = [{ customer_id := 77, recency := 1, frequency := 2, monetary := 60 }] := by
  rw [show rfmAggregateDefault exampleTxs
      = [mkAggregate (2 * nsPerDay + nsPerDay) exampleTxs 77] from rfl]
  congr 1
  ext
  · rfl
  · rfl
  · rfl
  · show (10 : Rat) + (20 + (30 + 0)) = 60
    norm_num

/-- C1: Aggregation correctness: on a non-empty transaction set the
aggregator produces exactly one aggregate per distinct customer id (in
ascending id order, one row per group key); and on the concrete set with
one customer holding records at days 0 < 1 < 2 under order 1 and a second
order 2 at day 1, with the default snapshot (day 2 + one day), the result
is recency 1, frequency 2 (distinct orders, not the three rows) and
monetary 10 + 20 + 30 = 60. -/
theorem claim_C1 :
    (∀ txs : List TransactionRecord, txs ≠ [] →
      ((rfmAggregateDefault txs).map (fun a => a.customer_id) = customerIds txs
        ∧ (customerIds txs).Nodup
        ∧ ∀ c : Nat, c ∈ customerIds txs ↔ c ∈ txs.map (fun t => t.customer_id)))
    ∧ rfmAggregateDefault exampleTxs
        = [{ customer_id := 77, recency := 1, frequency := 2, monetary := 60 }] := by
  constructor
  · intro txs htxs
    refine ⟨?_, ?_, ?_⟩
    · unfold rfmAggregateDefault
      cases hmax : maxInvoiceDate txs with
      | none =>
        exfalso
        apply htxs
        have := (listMax?_eq_none_iff _).mp hmax
        exact List.map_eq_nil_iff.mp this
      | some m =>
        unfold rfmAggregate
        rw [List.map_map,
          show ((fun a => a.customer_id) ∘ mkAggregate (m + nsPerDay) txs)
            = fun c => c from rfl]
        exact List.map_id _
    · exact ((List.perm_insertionSort _ _).nodup_iff).mpr (List.nodup_dedup _)
    · intro c
      exact ((List.perm_insertionSort _ _).mem_iff).trans List.mem_dedup
  · exact exampleAgg_eq

/-- Witness for C1 at the concrete three-record transaction set. -/
theorem witness_C1 :
    (rfmAggregateDefault exampleTxs).map (fun a => a.customer_id)
      = customerIds exampleTxs :=
  (claim_C1.1 exampleTxs (by simp [exampleTxs])).1

/-- C5: Segment rule precedence: the segmentation is the four-rule
first-match-wins chain; (R,F,M) = (5,5,5) is classified Best Customers and
never reaches a later rule; each later rule fires only when all earlier
guards failed; and the monetary score plays no role in rules 2-4. -/
theorem claim_C5 :
    rfm_segment 5 5 5 = "Best Customers"
    ∧ (∀ r f m : Nat, 4 ≤ r → 4 ≤ f → 4 ≤ m → rfm_segment r f m = "Best Customers")
    ∧ (∀ r f m : Nat, ¬(4 ≤ r ∧ 4 ≤ f ∧ 4 ≤ m) → 4 ≤ r → f ≤ 2 →
        rfm_segment r f m = "New Customers")
    ∧ (∀ r f m : Nat, ¬(4 ≤ r ∧ 4 ≤ f ∧ 4 ≤ m) → ¬(4 ≤ r ∧ f ≤ 2) → r ≤ 2 → 4 ≤ f →
        rfm_segment r f m = "Loyal Customers")
    ∧ (∀ r f m : Nat, ¬(4 ≤ r ∧ 4 ≤ f ∧ 4 ≤ m) → ¬(4 ≤ r ∧ f ≤ 2) →
        ¬(r ≤ 2 ∧ 4 ≤ f) → rfm_segment r f m = "Others")
    ∧ (∀ r f m m' : Nat, ¬(4 ≤ r ∧ 4 ≤ f ∧ 4 ≤ m) → ¬(4 ≤ r ∧ 4 ≤ f ∧ 4 ≤ m') →
        rfm_segment r f m = rfm_segment r f m') := by
  refine ⟨rfl, ?_, ?_, ?_, ?_, ?_⟩
  · intro r f m h1 h2 h3
    unfold rfm_segment
    rw [if_pos ⟨h1, h2, h3⟩]
  · intro r f m h1 h2 h3
    unfold rfm_segment
    rw [if_neg h1, if_pos ⟨h2, h3⟩]
  · intro r f m h1 h2 h3 h4
    unfold rfm_segment
    rw [if_neg h1, if_neg h2, if_pos ⟨h3, h4⟩]
  · intro r f m h1 h2 h3
    unfold rfm_segment
    rw [if_neg h1, if_neg h2, if_neg h3]
  · intro r f m m' h1 h2
    unfold rfm_segment
    rw [if_neg h1, if_neg h2]

/-- Witness for C5 at concrete score triples. -/
theorem witness_C5 :
    rfm_segment 5 1 1 = "New Customers" ∧ rfm_segment 3 3 1 = rfm_segment 3 3 9 :=
  ⟨claim_C5.2.2.1 5 1 1 (by omega) (by omega) (by omega),
    claim_C5.2.2.2.2.2 3 3 1 9 (by omega) (by omega)⟩

/-- C6: the claim says a population of 0 < N < 5 customers must be scored
without an error; the code instead raises for N = 1: the single rank gives
`pd.qcut` six identical bin edges and pandas raises
`ValueError: Bin edges must be unique` (modelled by `none`), contradicting
the code's own comment that the qcut scores never fail.  For N = 3 the
scorer does succeed, with every score in 1..5, as the claim demands. -/
theorem claim_C6 :
    scoreRFM [{ customer_id := 7, recency := 3, frequency := 2, monetary := 50 }]
      = none
    ∧ scoreRFM aggs3 = some out3 := ⟨rfl, rfl⟩

/-- C7: on an empty filtered input the aggregate metrics return total
revenue 0, order count 0, customer count 0 and average order value 0 (the
division is short-circuited); the scorer half of the claim fails on the
code: on the empty aggregate set `pd.qcut` raises (six NaN bin edges), so
the model returns `none` instead of an empty result. -/
theorem claim_C7 :
    total_sales [] = 0 ∧ total_orders [] = 0 ∧ total_customers [] = 0
    ∧ avg_order_value [] = 0
    ∧ scoreRFM (rfmAggregateDefault []) = none :=
  ⟨rfl, rfl, rfl, rfl, rfl⟩

/-- C9: every scored customer whose frequency score equals 3 is segmented
as Others, whatever its recency and monetary scores: rule 1 and rule 3
need F ≥ 4 and rule 2 needs F ≤ 2, so no non-default rule can fire. -/
theorem claim_C9 (aggs : List CustomerAggregate) (out : List ScoredCustomer)
    (h : scoreRFM aggs = some out) (sc : ScoredCustomer) (hsc : sc ∈ out)
    (hf : sc.f_score = 3) : sc.segment = "Others" := by
  rcases scoreRFM_mem aggs out h sc hsc with ⟨i, hi, rfl⟩
  simp only [scoreOne] at hf ⊢
  rw [hf]
  exact rfm_segment_freq_three _ _

/-- Witness for C9: in the three-customer population `aggs3` the middle
customer scores F = 3 and is segmented Others. -/
theorem witness_C9 :
    ({ customer_id := 2, recency := 4, frequency := 3, monetary := 50
     , r_score := 3, f_score := 3, m_score := 5, rfm_score := "335"
     , segment := "Others" } : ScoredCustomer).segment = "Others" :=
  claim_C9 aggs3 out3 rfl _ (by simp [out3]) rfl

/-- C10: with the default snapshot (one day past the population maximum
timestamp) every aggregate's recency is at least 1, because each
customer's last purchase is at most the global maximum. -/
theorem claim_C10 (txs : List TransactionRecord) (a : CustomerAggregate)
    (ha : a ∈ rfmAggregateDefault txs) : 1 ≤ a.recency := by
  unfold rfmAggregateDefault at ha
  cases hmax : maxInvoiceDate txs with
  | none =>
    rw [hmax] at ha
    simp at ha
  | some m =>
    rw [hmax] at ha
    unfold rfmAggregate at ha
    rcases List.mem_map.mp ha with ⟨c, hc, rfl⟩
    have hc' : c ∈ (txs.map (fun t => t.customer_id)).dedup :=
      ((List.perm_insertionSort _ _).mem_iff).mp hc
    rcases List.mem_map.mp (List.mem_dedup.mp hc') with ⟨t, ht, htc⟩
    have hrec : t ∈ recordsOf txs c :=
      List.mem_filter.mpr ⟨ht, by simp [htc]⟩
    have hlast : lastPurchase txs c ≤ m := by
      unfold lastPurchase
      cases hsub : listMax? ((recordsOf txs c).map (fun u => u.timestamp)) with
      | none =>
        exfalso
        have := (listMax?_eq_none_iff _).mp hsub
        have : t.timestamp ∈ (recordsOf txs c).map (fun u => u.timestamp) :=
          List.mem_map.mpr ⟨t, hrec, rfl⟩
        simp_all
      | some mx =>
        rcases List.mem_map.mp (listMax?_mem hsub) with ⟨u, hu, hut⟩
        have hu' : u ∈ txs := (List.mem_filter.mp hu).1
        have hmem : u.timestamp ∈ txs.map (fun t => t.timestamp) :=
          List.mem_map.mpr ⟨u, hu', rfl⟩
        have : mx ≤ m := by
          rw [← hut]
          exact listMax?_isMax hmax _ hmem
        simpa using this
    simp only [mkAggregate]
    unfold timedeltaDays
    have hpos : (0 : Int) < nsPerDay := by norm_num [nsPerDay]
    rw [Int.fdiv_eq_ediv _ (le_of_lt hpos), Int.le_ediv_iff_mul_le hpos]
    omega

/-- Witness for C10 at the concrete example transaction set. -/
theorem witness_C10 :
    (1 : Int) ≤ ({ customer_id := 77, recency := 1, frequency := 2, monetary := 60 }
      : CustomerAggregate).recency :=
  claim_C10 exampleTxs _ (by rw [exampleAgg_eq]; exact List.mem_cons_self _ _)

/-- C2: Rank uniqueness: each of the three per-dimension rank columns is a
permutation of 1..N with no repeats even under ties, and ties are broken by
row order: among equal values the earlier row gets the strictly smaller
rank. -/
theorem claim_C2 (aggs : List CustomerAggregate) :
    (rankFirst (aggs.map (fun a => a.recency))).Perm (List.range' 1 aggs.length)
    ∧ (rankFirst (aggs.map (fun a => a.frequency))).Perm (List.range' 1 aggs.length)
    ∧ (rankFirst (aggs.map (fun a => a.monetary))).Perm (List.range' 1 aggs.length)
    ∧ (∀ (β : Type) [LinearOrder β] (vs : List β) (i j : Nat)
        (hi : i < vs.length) (hj : j < vs.length), i < j →
        vs.get ⟨i, hi⟩ = vs.get ⟨j, hj⟩ →
        rankOf vs i (vs.get ⟨i, hi⟩) < rankOf vs j (vs.get ⟨j, hj⟩)) := by
  refine ⟨?_, ?_, ?_, ?_⟩
  · have h := rankFirst_perm (aggs.map (fun a => a.recency))
    rwa [List.length_map] at h
  · have h := rankFirst_perm (aggs.map (fun a => a.frequency))
    rwa [List.length_map] at h
  · have h := rankFirst_perm (aggs.map (fun a => a.monetary))
    rwa [List.length_map] at h
  · intro β _ vs i j hi hj hij hv
    exact rankOf_lt_of_val_eq vs i j hij hj hv

/-- Witness for C2 at a two-customer population with tied recency values. -/
theorem witness_C2 :
    (rankFirst (aggsTie.map (fun a => a.recency))).Perm (List.range' 1 2)
    ∧ rankOf [(5 : Rat), 5] 0 ([(5 : Rat), 5].get ⟨0, by norm_num⟩)
        < rankOf [(5 : Rat), 5] 1 ([(5 : Rat), 5].get ⟨1, by norm_num⟩) :=
  ⟨(claim_C2 aggsTie).1,
    (claim_C2 aggsTie).2.2.2 Rat [(5 : Rat), 5] 0 1 (by norm_num) (by norm_num)
      (by norm_num) rfl⟩

theorem rank_map_strict_max {β : Type} [LinearOrder β]
    (aggs : List CustomerAggregate) (f : CustomerAggregate → β)
    (i : Nat) (hi : i < aggs.length)
    (hmax : ∀ (j : Nat) (hj : j < aggs.length), j ≠ i →
      f (aggs.get ⟨j, hj⟩) < f (aggs.get ⟨i, hi⟩)) :
    rankOf (aggs.map f) i (f (aggs.get ⟨i, hi⟩)) = aggs.length := by
  have hvi : i < (aggs.map f).length := by rw [List.length_map]; exact hi
  have hget : (aggs.map f).get ⟨i, hvi⟩ = f (aggs.get ⟨i, hi⟩) := by
    simp [List.getElem_map]
  rw [← hget, rankOf_eq_length_of_strict_max (aggs.map f) i hvi ?_, List.length_map]
  intro j hj hji
  have hj' : j < aggs.length := by rw [List.length_map] at hj; exact hj
  have h1 : (aggs.map f).get ⟨j, hj⟩ = f (aggs.get ⟨j, hj'⟩) := by
    simp [List.getElem_map]
  rw [h1, hget]
  exact hmax j hj' hji

theorem rank_map_strict_min {β : Type} [LinearOrder β]
    (aggs : List CustomerAggregate) (f : CustomerAggregate → β)
    (i : Nat) (hi : i < aggs.length)
    (hmin : ∀ (j : Nat) (hj : j < aggs.length), j ≠ i →
      f (aggs.get ⟨i, hi⟩) < f (aggs.get ⟨j, hj⟩)) :
    rankOf (aggs.map f) i (f (aggs.get ⟨i, hi⟩)) = 1 := by
  have hvi : i < (aggs.map f).length := by rw [List.length_map]; exact hi
  have hget : (aggs.map f).get ⟨i, hvi⟩ = f (aggs.get ⟨i, hi⟩) := by
    simp [List.getElem_map]
  rw [← hget, rankOf_eq_one_of_strict_min (aggs.map f) i hvi ?_]
  intro j hj hji
  have hj' : j < aggs.length := by rw [List.length_map] at hj; exact hj
  have h1 : (aggs.map f).get ⟨j, hj⟩ = f (aggs.get ⟨j, hj'⟩) := by
    simp [List.getElem_map]
  rw [h1, hget]
  exact hmin j hj' hji

theorem rank_map_bounds {β : Type} [LinearOrder β]
    (aggs : List CustomerAggregate) (f : CustomerAggregate → β)
    (i : Nat) (hi : i < aggs.length) :
    1 ≤ rankOf (aggs.map f) i (f (aggs.get ⟨i, hi⟩))
    ∧ rankOf (aggs.map f) i (f (aggs.get ⟨i, hi⟩)) ≤ aggs.length := by
  refine ⟨rankOf_pos _ _ _, ?_⟩
  have hvi : i < (aggs.map f).length := by rw [List.length_map]; exact hi
  have hget : (aggs.map f).get ⟨i, hvi⟩ = f (aggs.get ⟨i, hi⟩) := by
    simp [List.getElem_map]
  calc rankOf (aggs.map f) i (f (aggs.get ⟨i, hi⟩))
      = rankOf (aggs.map f) i ((aggs.map f).get ⟨i, hvi⟩) := by rw [hget]
    _ ≤ (aggs.map f).length := rankOf_le_length _ _ _
    _ = aggs.length := List.length_map _ _

/-- C4: Direction invariant: in a scored population the customer with the
single largest monetary (resp. frequency) value scores 5 in that
dimension, the customer with the single largest recency value scores 1,
and the customer with the single smallest recency value scores 5: the
recency labels are inverted, the frequency and monetary labels direct. -/
theorem claim_C4 (aggs : List CustomerAggregate) (out : List ScoredCustomer)
    (h : scoreRFM aggs = some out) (i : Nat) (hi : i < aggs.length)
    (hi' : i < out.length) :
    ((∀ (j : Nat) (hj : j < aggs.length), j ≠ i →
        (aggs.get ⟨j, hj⟩).monetary < (aggs.get ⟨i, hi⟩).monetary) →
      (out.get ⟨i, hi'⟩).m_score = 5)
    ∧ ((∀ (j : Nat) (hj : j < aggs.length), j ≠ i →
        (aggs.get ⟨j, hj⟩).frequency < (aggs.get ⟨i, hi⟩).frequency) →
      (out.get ⟨i, hi'⟩).f_score = 5)
    ∧ ((∀ (j : Nat) (hj : j < aggs.length), j ≠ i →
        (aggs.get ⟨j, hj⟩).recency < (aggs.get ⟨i, hi⟩).recency) →
      (out.get ⟨i, hi'⟩).r_score = 1)
    ∧ ((∀ (j : Nat) (hj : j < aggs.length), j ≠ i →
        (aggs.get ⟨i, hi⟩).recency < (aggs.get ⟨j, hj⟩).recency) →
      (out.get ⟨i, hi'⟩).r_score = 5) := by
  have hn := scoreRFM_length_ge aggs out h
  rw [scoreRFM_out_getElem aggs out h i hi hi']
  refine ⟨?_, ?_, ?_, ?_⟩
  · intro hmax
    simp only [scoreOne]
    rw [rank_map_strict_max aggs (fun x => x.monetary) i hi hmax,
      qcutBucket_last _ hn]
  · intro hmax
    simp only [scoreOne]
    rw [rank_map_strict_max aggs (fun x => x.frequency) i hi hmax,
      qcutBucket_last _ hn]
  · intro hmax
    simp only [scoreOne]
    rw [rank_map_strict_max aggs (fun x => x.recency) i hi hmax,
      qcutBucket_last _ hn]
  · intro hmin
    simp only [scoreOne]
    rw [rank_map_strict_min aggs (fun x => x.recency) i hi hmin,
      qcutBucket_first]

/-- Witness for C4 on `aggs2`: customer 2 holds the strict monetary maximum
and scores M = 5; customer 1 holds the strict recency maximum and scores
R = 1. -/
theorem witness_C4 :
    (out2.get ⟨1, by simp [out2]⟩).m_score = 5
    ∧ (out2.get ⟨0, by simp [out2]⟩).r_score = 1 :=
  ⟨(claim_C4 aggs2 out2 rfl 1 (by simp [aggs2]) (by simp [out2])).1 (by decide),
    (claim_C4 aggs2 out2 rfl 0 (by simp [aggs2]) (by simp [out2])).2.2.1 (by decide)⟩

/-- C8: Composite score: every scored customer's `RFM_Score` is the
concatenation of the three one-digit scores in the fixed order recency,
frequency, monetary; it has exactly 3 characters, and a (5,4,1) score
triple renders as the string "541". -/
theorem claim_C8 (aggs : List CustomerAggregate) (out : List ScoredCustomer)
    (h : scoreRFM aggs = some out) (sc : ScoredCustomer) (hsc : sc ∈ out) :
    sc.rfm_score
      = toString sc.r_score ++ toString sc.f_score ++ toString sc.m_score
    ∧ sc.rfm_score.length = 3
    ∧ (sc.r_score = 5 → sc.f_score = 4 → sc.m_score = 1 → sc.rfm_score = "541") := by
  have hn := scoreRFM_length_ge aggs out h
  rcases scoreRFM_mem aggs out h sc hsc with ⟨i, hi, rfl⟩
  have hrankR := rank_map_bounds aggs (fun x => x.recency) i hi
  have hrankF := rank_map_bounds aggs (fun x => x.frequency) i hi
  have hrankM := rank_map_bounds aggs (fun x => x.monetary) i hi
  have hbR1 := qcutBucket_pos aggs.length _ hn hrankR.1
  have hbR5 := qcutBucket_le_five aggs.length _ hn hrankR.2
  have hbF1 := qcutBucket_pos aggs.length _ hn hrankF.1
  have hbF5 := qcutBucket_le_five aggs.length _ hn hrankF.2
  have hbM1 := qcutBucket_pos aggs.length _ hn hrankM.1
  have hbM5 := qcutBucket_le_five aggs.length _ hn hrankM.2
  have hfmt : (scoreOne aggs i (aggs.get ⟨i, hi⟩)).rfm_score
      = toString (scoreOne aggs i (aggs.get ⟨i, hi⟩)).r_score
        ++ toString (scoreOne aggs i (aggs.get ⟨i, hi⟩)).f_score
        ++ toString (scoreOne aggs i (aggs.get ⟨i, hi⟩)).m_score := by
    simp only [scoreOne]
  have hr : 1 ≤ (scoreOne aggs i (aggs.get ⟨i, hi⟩)).r_score
      ∧ (scoreOne aggs i (aggs.get ⟨i, hi⟩)).r_score ≤ 5 := by
    simp only [scoreOne]
    omega
  have hf : 1 ≤ (scoreOne aggs i (aggs.get ⟨i, hi⟩)).f_score
      ∧ (scoreOne aggs i (aggs.get ⟨i, hi⟩)).f_score ≤ 5 := by
    simp only [scoreOne]
    omega
  have hm : 1 ≤ (scoreOne aggs i (aggs.get ⟨i, hi⟩)).m_score
      ∧ (scoreOne aggs i (aggs.get ⟨i, hi⟩)).m_score ≤ 5 := by
    simp only [scoreOne]
    omega
  refine ⟨hfmt, ?_, ?_⟩
  · rw [hfmt, String.length_append, String.length_append,
      toString_digit_length _ hr.1 hr.2, toString_digit_length _ hf.1 hf.2,
      toString_digit_length _ hm.1 hm.2]
  · intro h5 h4 h1
    rw [hfmt, h5, h4, h1]
    rfl

/-- Witness for C8 on `aggs2`: the first scored customer's composite code
"111" is the three concatenated digit strings. -/
theorem witness_C8 :
    scW.rfm_score
      = toString scW.r_score ++ toString scW.f_score ++ toString scW.m_score :=
  (claim_C8 aggs2 out2 rfl scW (by simp [out2, scW])).1

/-- C3 (amended): for every population size N ≥ 2 the five qcut buckets
over the ranks 1..N have sizes that differ by at most 1 and sum to exactly
N, and N = 6 gives sizes [2,1,1,1,1]; but when N is not divisible by 5 the
extra members need not all sit in earlier buckets. -/
theorem claim_C3 (n : Nat) (hn : 2 ≤ n) :
    (∀ i j : Nat, 1 ≤ i → i ≤ 5 → 1 ≤ j → j ≤ 5 →
      bucketSize n i ≤ bucketSize n j + 1)
    ∧ bucketSize n 1 + bucketSize n 2 + bucketSize n 3 + bucketSize n 4
        + bucketSize n 5 = n
    ∧ [bucketSize 6 1, bucketSize 6 2, bucketSize 6 3, bucketSize 6 4,
        bucketSize 6 5] = [2, 1, 1, 1, 1] := by
  have e0 := countP_bucket_le_zero n hn
  have e1 := countP_bucket_le n 1 hn (by omega) (by omega)
  have e2 := countP_bucket_le n 2 hn (by omega) (by omega)
  have e3 := countP_bucket_le n 3 hn (by omega) (by omega)
  have e4 := countP_bucket_le n 4 hn (by omega) (by omega)
  have e5 := countP_bucket_le n 5 hn (by omega) (by omega)
  have k1 := countP_bucket_split n 0 1 rfl
  have k2 := countP_bucket_split n 1 2 rfl
  have k3 := countP_bucket_split n 2 3 rfl
  have k4 := countP_bucket_split n 3 4 rfl
  have k5 := countP_bucket_split n 4 5 rfl
  rw [← bucketSize_eq_countP] at k1 k2 k3 k4 k5
  refine ⟨?_, ?_, ?_⟩
  · intro i j hi1 hi5 hj1 hj5
    interval_cases i <;> interval_cases j <;> omega
  · omega
  · decide

/-- Witness for C3 at the population size 6 of the spec's example. -/
theorem witness_C3 :
    bucketSize 6 1 + bucketSize 6 2 + bucketSize 6 3 + bucketSize 6 4
      + bucketSize 6 5 = 6 :=
  (claim_C3 6 (by omega)).2.1

/-- C3 counterexample: for N = 7 (not divisible by 5) the qcut bucket
sizes are [2,1,1,1,2]: the fifth bucket holds an extra member while the
second, third and fourth do not, so the extra members do not all go to
earlier buckets as the claim states. -/
theorem counterexample_C3 :
    7 % 5 ≠ 0
    ∧ [bucketSize 7 1, bucketSize 7 2, bucketSize 7 3, bucketSize 7 4,
        bucketSize 7 5] = [2, 1, 1, 1, 2]
    ∧ bucketSize 7 2 < bucketSize 7 5 := by
  decide

end EcommerceDashboard
